import Mathlib

/-!
Shallow embedding of the `updatest-scraper-tool` repository (Python):
  * `src/scraper/shopify_catalog.py` — `ShopifyCatalogIndexer` with
    `fetch_catalog`, `_index_product`, `lookup_sku`;
  * `src/app.py` — `_normalise_rows`.

Python strings are modelled as Lean `String` (a list of characters);
`str.strip()` / `str.lower()` / `str.lstrip("0")` are modelled on the
underlying character list with `Char.isWhitespace` / `Char.toLower` /
dropping leading `'0'` characters.  Python dicts are modelled as
insertion-ordered association lists whose insert overwrites in place.
-/

namespace Scraper

/-- Python `s.strip()`: drop leading and trailing whitespace. -/
def stripChars (l : List Char) : List Char :=
  ((l.dropWhile Char.isWhitespace).reverse.dropWhile Char.isWhitespace).reverse

/-- Python `s.lower()` (ASCII model, via `Char.toLower`). -/
def lowerChars (l : List Char) : List Char := l.map Char.toLower

/-- Python `s.lstrip("0")`: drop leading `'0'` characters. -/
def lstripZeros (l : List Char) : List Char := l.dropWhile (fun c => c == '0')

/--
SKU-key normalization, as duplicated verbatim in
`ShopifyCatalogIndexer._index_product` (lines 76–82) and
`ShopifyCatalogIndexer.lookup_sku` (lines 114–117):
```
sku_str = str(sku).strip().lower()
sku_key = sku_str.lstrip("0")
if not sku_key:
    sku_key = sku_str
```
-/
def normalizeKey (s : String) : String :=
  let sku_str := lowerChars (stripChars s.data)
  let sku_key := lstripZeros sku_str
  if sku_key = [] then ⟨sku_str⟩ else ⟨sku_key⟩

/-- Removing the leading `'0'` characters of a raw string, the
`stripLeadingZeros` operation the spec's algebraic property quantifies
over (`normalizeKey(s) == normalizeKey(stripLeadingZeros(s))`). -/
def stripLeadingZeros (s : String) : String := ⟨lstripZeros s.data⟩

/-- Python `s.strip()` on a `String`. -/
def pyStrip (s : String) : String := ⟨stripChars s.data⟩

/-- Python `s.lower()` on a `String`. -/
def pyLower (s : String) : String := ⟨lowerChars s.data⟩

/-- Python `s.rstrip("/")` (used by `__init__` on the base URL). -/
def rstripSlash (s : String) : String :=
  ⟨(s.data.reverse.dropWhile (fun c => c == '/')).reverse⟩

/-- Python f-string rendering of an optional string (`str(None) = "None"`). -/
def fstr : Option String → String
  | none => "None"
  | some s => s

/-- Python f-string rendering of an optional number. -/
def fstrNat : Option Nat → String
  | none => "None"
  | some n => toString n

/-- Python truthiness of an optional string: `None` and `""` are falsy. -/
def truthyStr : Option String → Bool
  | none => false
  | some s => !(s == "")

/-- One entry of a product's `variants` array, with the fields
`_index_product` reads. -/
structure Variant where
  id : Option Nat
  sku : Option String
  title : Option String
  price : Option String
  compare_at_price : Option String
  available : Option Bool
  deriving Repr, DecidableEq

/-- One entry of a page's `products` array, with the fields
`_index_product` reads; each element of `images` is that image's `src`. -/
structure Product where
  id : Option Nat
  handle : Option String
  title : Option String
  product_type : Option String
  published_at : Option String
  images : List (Option String)
  variants : List Variant
  deriving Repr, DecidableEq

/-- The `variant_data` dict built by `_index_product` (lines 84–100). -/
structure VariantRecord where
  sku : String
  product_id : Option Nat
  variant_id : Option Nat
  handle : Option String
  title : Option String
  variant_title : Option String
  name : Option String
  price : Option String
  rrp : Option String
  available : Option Bool
  product_type : Option String
  published_at : Option String
  image_url : Option String
  product_url : String
  deriving Repr, DecidableEq

/-- `self.catalog`: a Python dict modelled as an insertion-ordered
association list with unique keys. -/
abbrev Catalog := List (String × VariantRecord)

/-- Python `dict.get`. -/
def dictGet (k : String) (d : Catalog) : Option VariantRecord :=
  (d.find? (fun p => p.1 == k)).map (fun p => p.2)

/-- Python `dict[k] = v`: overwrite in place if the key is present,
else append at the end (insertion order). -/
def dictInsert (k : String) (v : VariantRecord) (d : Catalog) : Catalog :=
  if d.any (fun p => p.1 == k) then
    d.map (fun p => if p.1 == k then (k, v) else p)
  else d ++ [(k, v)]

/-- `images[0].get("src") if images else None`. -/
def headImage : List (Option String) → Option String
  | [] => none
  | src :: _ => src

/-- The `variant_data` construction of `_index_product` (lines 84–100),
for a variant whose raw `sku` passed the truthiness guard. -/
def mkVariantData (base_url : String) (product : Product)
    (main_image : Option String) (variant : Variant) (sku : String) :
    VariantRecord :=
  { sku := sku
    product_id := product.id
    variant_id := variant.id
    handle := product.handle
    title := product.title
    variant_title := variant.title
    name := if variant.title ≠ some "Default Title" then
        some (fstr product.title ++ " - " ++ fstr variant.title)
      else product.title
    price := variant.price
    rrp := variant.compare_at_price
    available := variant.available
    product_type := product.product_type
    published_at := product.published_at
    image_url := main_image
    product_url := base_url ++ "/products/" ++ fstr product.handle
      ++ "?variant=" ++ fstrNat variant.id }

/-- `ShopifyCatalogIndexer._index_product`: adds all variants of one
product that carry a truthy SKU to the catalog, keyed by the
normalized SKU. -/
def _index_product (base_url : String) (catalog : Catalog)
    (product : Product) : Catalog :=
  let main_image := headImage product.images
  product.variants.foldl (fun cat variant =>
    match variant.sku with
    | none => cat
    | some sku =>
      if sku == "" then cat
      else dictInsert (normalizeKey sku)
        (mkVariantData base_url product main_image variant sku) cat) catalog

/-- One HTTP response of the paginated `products.json` feed, as
`fetch_catalog` observes it: a 200 response with a parsed `products`
array (a missing `products` key yields `[]`), a non-200 status, or an
exception raised while fetching/parsing the page. -/
inductive PageResp where
  | ok (products : List Product)
  | badStatus
  | exn
  deriving Repr, DecidableEq

/-- The mutable fields of a `ShopifyCatalogIndexer`. -/
structure IndexerState where
  base_url : String
  catalog : Catalog
  indexed : Bool
  deriving Repr, DecidableEq

/-- `ShopifyCatalogIndexer.__init__`. -/
def initIndexer (base_url : String) : IndexerState :=
  { base_url := rstripSlash base_url, catalog := [], indexed := false }

/--
The `while True` loop of `fetch_catalog`, driven by the feed: the list
of successive responses the server would give for pages 1, 2, 3, ….
Each iteration performs exactly one page fetch (`fetches` counts them);
a non-200 status, an exception, or an empty `products` array breaks out
of the loop; otherwise every product of the page is indexed,
`total_skus` is set to `len(self.catalog)` and the next page is
fetched.  An exhausted feed (`[]`) models the end of the known response
prefix; theorems only ever run the loop on feeds that contain an
explicit stopping response, so this case is never reached.
-/
def fetchLoop (base_url : String) :
    Catalog → Nat → Nat → List PageResp → Catalog × Nat × Nat
  | cat, total, fetches, [] => (cat, total, fetches)
  | cat, total, fetches, resp :: rest =>
    match resp with
    | PageResp.badStatus => (cat, total, fetches + 1)
    | PageResp.exn => (cat, total, fetches + 1)
    | PageResp.ok [] => (cat, total, fetches + 1)
    | PageResp.ok (p :: ps) =>
      let cat2 := (p :: ps).foldl (_index_product base_url) cat
      fetchLoop base_url cat2 cat2.length (fetches + 1) rest

/-- `ShopifyCatalogIndexer.fetch_catalog`, returning the new state, the
returned `total_skus`, and the number of page fetches performed. -/
def fetch_catalog (feed : List PageResp) (st : IndexerState) :
    IndexerState × Nat × Nat :=
  let r := fetchLoop st.base_url st.catalog 0 0 feed
  ({ st with catalog := r.1, indexed := true }, r.2.1, r.2.2)

/-- `ShopifyCatalogIndexer.lookup_sku`. -/
def lookup_sku (st : IndexerState) (sku : String) : Option VariantRecord :=
  if st.indexed = false then none
  else dictGet (normalizeKey sku) st.catalog

/-- The (product, variant) pairs of one product whose variant passes
the SKU truthiness guard, in order. -/
def eligibleVariants (p : Product) : List (Product × Variant) :=
  (p.variants.filter (fun v => truthyStr v.sku)).map (fun v => (p, v))

/-- All (product, variant) pairs a product list indexes, in processing
order. -/
def eligiblePairs (ps : List Product) : List (Product × Variant) :=
  (ps.map eligibleVariants).flatten

/-- The catalog key a (product, variant) pair is indexed under. -/
def pairKey (pv : Product × Variant) : String :=
  normalizeKey (pv.2.sku.getD "")

/-- The record a (product, variant) pair is indexed as. -/
def pairRecord (base_url : String) (pv : Product × Variant) : VariantRecord :=
  mkVariantData base_url pv.1 (headImage pv.1.images) pv.2 (pv.2.sku.getD "")

/-! ### `src/app.py` — `_normalise_rows` -/

/-- One raw input row: a Python dict from field names to optional
string values. -/
abbrev Row := List (String × Option String)

/-- Python `r.get(k)`: `None` both when the key is absent and when it
is present with value `None`. -/
def rowGet (r : Row) (k : String) : Option String :=
  match r.find? (fun p => p.1 == k) with
  | none => none
  | some p => p.2

/-- Python `a or d` for an optional string `a` and a string default:
the value if truthy, else the default. -/
def orElseStr (a : Option String) (d : String) : String :=
  match a with
  | some s => if s = "" then d else s
  | none => d

/-- `(r.get(K) or r.get(k) or "").strip() or None` — the field
extraction `_normalise_rows` performs for `SKU`/`sku` and `URL`/`url`. -/
def getField (r : Row) (upperKey lowerKey : String) : Option String :=
  let v := pyStrip (orElseStr (rowGet r upperKey) (orElseStr (rowGet r lowerKey) ""))
  if v = "" then none else some v

/-- A normalized input item as produced by `_normalise_rows`. -/
structure Item where
  sku : Option String
  url : Option String
  deriving Repr, DecidableEq

/-- The dedup identity key `((sku or "").lower(), (url or "").lower())`. -/
def itemKey (it : Item) : String × String :=
  (pyLower (it.sku.getD ""), pyLower (it.url.getD ""))

/-- One iteration's extraction: the `Item` a row contributes, or `none`
when both fields are falsy and the row is skipped. -/
def extractItem (r : Row) : Option Item :=
  let sku := getField r "SKU" "sku"
  let url := getField r "URL" "url"
  if sku = none ∧ url = none then none
  else some { sku := sku, url := url }

/-- The `for r in rows` loop of `_normalise_rows`, carrying the `seen`
set of already-emitted identity keys. -/
def normLoop (seen : List (String × String)) : List Row → List Item
  | [] => []
  | r :: rest =>
    match extractItem r with
    | none => normLoop seen rest
    | some it =>
      if seen.contains (itemKey it) then normLoop seen rest
      else it :: normLoop (itemKey it :: seen) rest

/-- `_normalise_rows` (src/app.py lines 23–39). -/
def _normalise_rows (rows : List Row) : List Item := normLoop [] rows

/-! ### Spec-side definition for the refinement claim C5 -/

/-- Modelled from the spec's words: "stripping leading zero characters,
except that when stripping leaves the empty string the trimmed
lowercased string (zeros included) is kept". -/
def stripZerosOrKeep (s : String) : String :=
  if lstripZeros s.data = [] then s else ⟨lstripZeros s.data⟩

/-- Modelled from the spec's words: the normalized key is obtained by
"trimming surrounding whitespace, lowercasing, then stripping leading
zero characters" with the keep-on-empty fallback. -/
def specNormalizeKey (s : String) : String :=
  stripZerosOrKeep (pyLower (pyStrip s))

/-! ### Concrete feed fixtures for the spec's end-to-end scenarios -/

/-- Page 1 variant of the C6 scenario: SKU `"ABC-1"`. -/
def variantA : Variant :=
  { id := some 11, sku := some "ABC-1", title := some "Default Title",
    price := some "10.00", compare_at_price := none, available := some true }

/-- Page 1 product of the C6 scenario. -/
def productA : Product :=
  { id := some 1, handle := some "prod-a", title := some "Product A",
    product_type := some "Gear", published_at := some "2024-01-01",
    images := [some "https://img.example/a.jpg"], variants := [variantA] }

/-- Page 2 variant of the C6 scenario: SKU `"073302"`. -/
def variantB : Variant :=
  { id := some 22, sku := some "073302", title := some "Large",
    price := some "20.00", compare_at_price := some "25.00",
    available := some true }

/-- Page 2 product of the C6 scenario. -/
def productB : Product :=
  { id := some 2, handle := some "prod-b", title := some "Product B",
    product_type := some "Gear", published_at := some "2024-02-01",
    images := [some "https://img.example/b.jpg"], variants := [variantB] }

/-- The C6 scenario feed: one product per page on pages 1 and 2, page 3
empty. -/
def feedC6 : List PageResp :=
  [PageResp.ok [productA], PageResp.ok [productB], PageResp.ok []]

/-- First C9 collision variant: raw SKU `"073302"`. -/
def variantZ1 : Variant :=
  { id := some 31, sku := some "073302", title := some "Default Title",
    price := some "5.00", compare_at_price := none, available := some true }

/-- Second C9 collision variant: raw SKU `"73302"` — a distinct raw SKU
normalizing to the same key `"73302"`. -/
def variantZ2 : Variant :=
  { id := some 32, sku := some "73302", title := some "Default Title",
    price := some "7.00", compare_at_price := none, available := some false }

/-- Product carrying the first collision variant. -/
def productZ1 : Product :=
  { id := some 3, handle := some "prod-z1", title := some "Alpha",
    product_type := none, published_at := none, images := [],
    variants := [variantZ1] }

/-- Product carrying the second collision variant, processed later. -/
def productZ2 : Product :=
  { id := some 4, handle := some "prod-z2", title := some "Beta",
    product_type := none, published_at := none, images := [],
    variants := [variantZ2] }

/-- The C9 collision feed: both colliding products on page 1, page 2
empty. -/
def feedC9 : List PageResp :=
  [PageResp.ok [productZ1, productZ2], PageResp.ok []]

/-! ## Helper lemmas: characters -/

theorem char_toNat_inj {c d : Char} (h : c.toNat = d.toNat) : c = d := by
  apply Char.eq_of_val_eq
  apply UInt32.eq_of_toBitVec_eq
  apply BitVec.toNat_injective
  exact h

theorem toNat_ofNat_lt {n : Nat} (h : n < 0xd800) : (Char.ofNat n).toNat = n := by
  unfold Char.ofNat
  rw [dif_pos (Or.inl h)]
  rfl

theorem toLower_toNat_large {c : Char} (h : 65 ≤ c.toNat ∧ c.toNat ≤ 90) :
    (Char.toLower c).toNat = c.toNat + 32 := by
  unfold Char.toLower
  simp only []
  rw [if_pos h]
  exact toNat_ofNat_lt (by omega)

theorem toLower_eq_self {c : Char} (h : ¬(65 ≤ c.toNat ∧ c.toNat ≤ 90)) :
    Char.toLower c = c := by
  unfold Char.toLower
  simp only []
  rw [if_neg h]

theorem toLower_idem (c : Char) :
    Char.toLower (Char.toLower c) = Char.toLower c := by
  by_cases h : 65 ≤ c.toNat ∧ c.toNat ≤ 90
  · have h1 := toLower_toNat_large h
    apply toLower_eq_self
    omega
  · rw [toLower_eq_self h, toLower_eq_self h]

theorem isWhitespace_iff (c : Char) :
    c.isWhitespace = true ↔
      (c.toNat = 32 ∨ c.toNat = 9 ∨ c.toNat = 13 ∨ c.toNat = 10) := by
  unfold Char.isWhitespace
  simp only [Bool.or_eq_true, decide_eq_true_eq]
  constructor
  · intro hd
    rcases hd with ((h | h) | h) | h <;> subst h <;> simp [Char.toNat]
  · intro hd
    rcases hd with h | h | h | h
    · exact Or.inl (Or.inl (Or.inl (@char_toNat_inj c ' ' h)))
    · exact Or.inl (Or.inl (Or.inr (@char_toNat_inj c '\t' h)))
    · exact Or.inl (Or.inr (@char_toNat_inj c '\r' h))
    · exact Or.inr (@char_toNat_inj c '\n' h)

theorem isWhitespace_toLower (c : Char) :
    (Char.toLower c).isWhitespace = c.isWhitespace := by
  by_cases h : 65 ≤ c.toNat ∧ c.toNat ≤ 90
  · have h1 := toLower_toNat_large h
    have hl : (Char.toLower c).isWhitespace = false := by
      by_contra hws
      have := (isWhitespace_iff (Char.toLower c)).mp (by
        cases hb : (Char.toLower c).isWhitespace
        · exact absurd hb hws
        · rfl)
      omega
    have hr : c.isWhitespace = false := by
      by_contra hws
      have := (isWhitespace_iff c).mp (by
        cases hb : c.isWhitespace
        · exact absurd hb hws
        · rfl)
      omega
    rw [hl, hr]
  · rw [toLower_eq_self h]

theorem toLower_beq_zero (c : Char) : (Char.toLower c == '0') = (c == '0') := by
  by_cases h : 65 ≤ c.toNat ∧ c.toNat ≤ 90
  · have h1 := toLower_toNat_large h
    have h0 : (('0' : Char)).toNat = 48 := rfl
    have hl : (Char.toLower c == '0') = false := by
      apply beq_eq_false_iff_ne.mpr
      intro he
      rw [he, h0] at h1
      omega
    have hr : (c == '0') = false := by
      apply beq_eq_false_iff_ne.mpr
      intro he
      rw [he, h0] at h
      omega
    rw [hl, hr]
  · rw [toLower_eq_self h]

theorem whitespace_ne_zero {c : Char} (h : c.isWhitespace = true) :
    (c == '0') = false := by
  have hn := (isWhitespace_iff c).mp h
  apply beq_eq_false_iff_ne.mpr
  intro he
  subst he
  have h0 : (('0' : Char)).toNat = 48 := rfl
  rw [h0] at hn
  rcases hn with h1 | h1 | h1 | h1 <;> omega

/-! ## Helper lemmas: the string pipeline -/

theorem normalizeKey_eq (s : String) : normalizeKey s =
    if lstripZeros (lowerChars (stripChars s.data)) = []
    then ⟨lowerChars (stripChars s.data)⟩
    else ⟨lstripZeros (lowerChars (stripChars s.data))⟩ := rfl

theorem lstripZeros_lowerChars (l : List Char) :
    lstripZeros (lowerChars l) = lowerChars (lstripZeros l) := by
  unfold lstripZeros lowerChars
  rw [List.dropWhile_map]
  have hp : ((fun c : Char => c == '0') ∘ Char.toLower) = (fun c : Char => c == '0') := by
    funext c
    exact toLower_beq_zero c
  rw [hp]

theorem dropWhile_eq_self_of_head? {α : Type} (p : α → Bool) (l : List α)
    (h : ∀ c, l.head? = some c → p c = false) : l.dropWhile p = l := by
  cases l with
  | nil => rfl
  | cons a t =>
    apply List.dropWhile_cons_of_neg
    simp [h a rfl]

theorem getLast?_dropWhile {α : Type} (p : α → Bool) (l : List α)
    (h : l.dropWhile p ≠ []) : (l.dropWhile p).getLast? = l.getLast? := by
  conv_rhs => rw [← List.takeWhile_append_dropWhile p l]
  rw [List.getLast?_append]
  cases hx : (l.dropWhile p).getLast? with
  | none => exact absurd (List.getLast?_eq_none_iff.mp hx) h
  | some x => rfl

theorem stripChars_getLast?_not_ws (l : List Char) :
    ∀ c, (stripChars l).getLast? = some c → c.isWhitespace = false := by
  intro c hc
  unfold stripChars at hc
  rw [List.getLast?_reverse] at hc
  have hw := List.head?_dropWhile_not Char.isWhitespace
    ((l.dropWhile Char.isWhitespace).reverse)
  rw [hc] at hw
  exact hw

theorem stripChars_head?_not_ws (l : List Char) :
    ∀ c, (stripChars l).head? = some c → c.isWhitespace = false := by
  intro c hc
  unfold stripChars at hc
  rw [List.head?_reverse] at hc
  by_cases hnil :
      (l.dropWhile Char.isWhitespace).reverse.dropWhile Char.isWhitespace = []
  · rw [hnil] at hc
    simp at hc
  · rw [getLast?_dropWhile _ _ hnil, List.getLast?_reverse] at hc
    have hw := List.head?_dropWhile_not Char.isWhitespace l
    rw [hc] at hw
    exact hw

theorem stripChars_eq_self (l : List Char)
    (h1 : ∀ c, l.head? = some c → c.isWhitespace = false)
    (h2 : ∀ c, l.getLast? = some c → c.isWhitespace = false) :
    stripChars l = l := by
  unfold stripChars
  rw [dropWhile_eq_self_of_head? _ _ h1]
  rw [dropWhile_eq_self_of_head? _ _ (by
    intro c hc
    rw [List.head?_reverse] at hc
    exact h2 c hc)]
  exact List.reverse_reverse l

/-- For a list with a non-whitespace head, `strip` only trims on the
right, and the input decomposes as the stripped part plus a whitespace
tail. -/
theorem stripChars_decomp (l : List Char)
    (h : ∀ c, l.head? = some c → c.isWhitespace = false) :
    l = stripChars l ++ (l.reverse.takeWhile Char.isWhitespace).reverse
      ∧ ∀ c ∈ (l.reverse.takeWhile Char.isWhitespace).reverse,
          c.isWhitespace = true := by
  constructor
  · unfold stripChars
    rw [dropWhile_eq_self_of_head? _ _ h]
    conv_lhs => rw [← List.reverse_reverse l,
      ← List.takeWhile_append_dropWhile Char.isWhitespace l.reverse]
    rw [List.reverse_append]
  · intro c hc
    rw [List.mem_reverse] at hc
    exact List.all_eq_true.mp List.all_takeWhile c hc

theorem getLast?_lstripZeros (m : List Char) (h : lstripZeros m ≠ []) :
    (lstripZeros m).getLast? = m.getLast? :=
  getLast?_dropWhile _ m h

theorem lstripZeros_head?_not_zero (m : List Char) :
    ∀ c, (lstripZeros m).head? = some c → (c == '0') = false := by
  intro c hc
  have hw := List.head?_dropWhile_not (fun c => c == '0') m
  rw [show lstripZeros m = m.dropWhile (fun c => c == '0') from rfl] at hc
  rw [hc] at hw
  exact hw

theorem lstripZeros_eq_self (m : List Char)
    (h : ∀ c, m.head? = some c → (c == '0') = false) : lstripZeros m = m :=
  dropWhile_eq_self_of_head? _ m h

/-- Stripping a list made of a non-empty whitespace-free-ends part
followed by pure whitespace returns the first part. -/
theorem stripChars_append_ws (v w : List Char)
    (hv : v ≠ [])
    (hhead : ∀ c, v.head? = some c → c.isWhitespace = false)
    (hlast : ∀ c, v.getLast? = some c → c.isWhitespace = false)
    (hw : ∀ c ∈ w, c.isWhitespace = true) :
    stripChars (v ++ w) = v := by
  unfold stripChars
  rw [dropWhile_eq_self_of_head? Char.isWhitespace (v ++ w) (by
    intro c hc
    rw [List.head?_append] at hc
    cases hv2 : v.head? with
    | none => exact absurd (List.head?_eq_none_iff.mp hv2) hv
    | some x =>
      rw [hv2] at hc
      simp only [Option.or_some, Option.some.injEq] at hc
      subst hc
      exact hhead x hv2)]
  rw [List.reverse_append]
  rw [List.dropWhile_append_of_pos (by
    intro a ha
    exact hw a ((List.mem_reverse).mp ha))]
  rw [dropWhile_eq_self_of_head? Char.isWhitespace v.reverse (by
    intro c hc
    rw [List.head?_reverse] at hc
    exact hlast c hc)]
  exact List.reverse_reverse v

/-- When trimming strips nothing on the left and the zero-stripped
trimmed list is non-empty with a non-whitespace head, stripping zeros
commutes with trimming. -/
theorem stripChars_lstripZeros (l : List Char)
    (hhead : ∀ c, l.head? = some c → c.isWhitespace = false)
    (h1 : lstripZeros (stripChars l) ≠ [])
    (h2 : ∀ c, (lstripZeros (stripChars l)).head? = some c → c.isWhitespace = false) :
    stripChars (lstripZeros l) = lstripZeros (stripChars l) := by
  obtain ⟨hdecomp, hwsw⟩ := stripChars_decomp l hhead
  have hsplit : lstripZeros l = lstripZeros (stripChars l)
      ++ (l.reverse.takeWhile Char.isWhitespace).reverse := by
    conv_lhs => rw [hdecomp]
    rw [show ∀ a b : List Char, lstripZeros (a ++ b)
        = (a ++ b).dropWhile (fun c => c == '0') from fun _ _ => rfl]
    rw [List.dropWhile_append]
    rw [if_neg (by
      intro hemp
      exact h1 (List.isEmpty_iff.mp hemp))]
    rfl
  rw [hsplit]
  apply stripChars_append_ws _ _ h1 h2 _ hwsw
  intro c hc
  rw [getLast?_lstripZeros _ h1] at hc
  exact stripChars_getLast?_not_ws l c hc

theorem lowerChars_idem (l : List Char) :
    lowerChars (lowerChars l) = lowerChars l := by
  unfold lowerChars
  rw [List.map_map]
  congr 1
  funext c
  exact toLower_idem c

theorem lowerChars_head?_not_ws (l : List Char)
    (h : ∀ c, l.head? = some c → c.isWhitespace = false) :
    ∀ c, (lowerChars l).head? = some c → c.isWhitespace = false := by
  intro c hc
  unfold lowerChars at hc
  rw [List.head?_map] at hc
  cases hm : l.head? with
  | none =>
    rw [hm] at hc
    simp at hc
  | some x =>
    rw [hm] at hc
    simp only [Option.map_some', Option.some.injEq] at hc
    subst hc
    rw [isWhitespace_toLower]
    exact h x hm

theorem lowerChars_getLast?_not_ws (l : List Char)
    (h : ∀ c, l.getLast? = some c → c.isWhitespace = false) :
    ∀ c, (lowerChars l).getLast? = some c → c.isWhitespace = false := by
  intro c hc
  unfold lowerChars at hc
  rw [List.getLast?_map] at hc
  cases hm : l.getLast? with
  | none =>
    rw [hm] at hc
    simp at hc
  | some x =>
    rw [hm] at hc
    simp only [Option.map_some', Option.some.injEq] at hc
    subst hc
    rw [isWhitespace_toLower]
    exact h x hm

/-! ## Claim theorems: SKU normalization (C5, C2, C10) -/

/-- C5: for every raw SKU, the normalized key equals the result of
trimming surrounding whitespace, lowercasing, then stripping leading
zero characters, except that when stripping leaves the empty string the
trimmed lowercased string (zeros included) is kept as the key.
(`normalizeKey` is the source's code, `specNormalizeKey` is the spec's
description.) -/
theorem c5_normalizeKey_matches_spec (s : String) :
    normalizeKey s = specNormalizeKey s := rfl

/-- C2 counterexample: the claimed identity
`normalizeKey(s) = normalizeKey(stripLeadingZeros(s))` fails at
`s = "0"`: the left side keeps the all-zero string `"0"`, while
stripping first yields the empty string, whose key is `""`. -/
theorem c2_counterexample :
    ¬ (normalizeKey "0" = normalizeKey (stripLeadingZeros "0")) := by decide

/-- C2 (amended): for every raw SKU `s` whose trimmed form is not made
of zeros only and whose leading zeros are not immediately followed by a
whitespace character (equivalently: stripping the leading zeros of the
trimmed string leaves a non-empty string with a non-whitespace head),
`normalizeKey s = normalizeKey (stripLeadingZeros s)`. -/
theorem c2_normalizeKey_stripLeadingZeros (s : String)
    (h1 : lstripZeros (stripChars s.data) ≠ [])
    (h2 : (lstripZeros (stripChars s.data)).head?.all
      (fun c => !c.isWhitespace) = true) :
    normalizeKey s = normalizeKey (stripLeadingZeros s) := by
  have h2' : ∀ c, (lstripZeros (stripChars s.data)).head? = some c →
      c.isWhitespace = false := by
    intro c hc
    rw [hc] at h2
    simpa using h2
  cases hl : s.data with
  | nil =>
    exfalso
    apply h1
    rw [hl]
    rfl
  | cons c t =>
    by_cases hws : c.isWhitespace = true
    · have hz : stripLeadingZeros s = s := by
        show (⟨lstripZeros s.data⟩ : String) = s
        rw [hl]
        rw [show lstripZeros (c :: t) = c :: t from
          List.dropWhile_cons_of_neg (by simp [whitespace_ne_zero hws])]
        rw [← hl]
      rw [hz]
    · have hhead : ∀ x, s.data.head? = some x → x.isWhitespace = false := by
        intro x hx
        rw [hl] at hx
        simp only [List.head?_cons, Option.some.injEq] at hx
        subst hx
        exact Bool.not_eq_true _ ▸ hws
      have hkey := stripChars_lstripZeros s.data hhead h1 h2'
      rw [normalizeKey_eq, normalizeKey_eq]
      rw [show (stripLeadingZeros s).data = lstripZeros s.data from rfl]
      rw [hkey]
      rw [lstripZeros_lowerChars (stripChars s.data)]
      rw [lstripZeros_lowerChars (lstripZeros (stripChars s.data))]
      rw [lstripZeros_eq_self _ (lstripZeros_head?_not_zero _)]
      have hne : lowerChars (lstripZeros (stripChars s.data)) ≠ [] := by
        unfold lowerChars
        rw [ne_eq, List.map_eq_nil_iff]
        exact h1
      rw [if_neg hne, if_neg hne]

/-- C2 witness: the amended identity applies to the spec's own example
`"073302"`, whose key equals that of `"73302"`. -/
theorem c2_witness :
    (lstripZeros (stripChars ("073302" : String).data) ≠ []
      ∧ (lstripZeros (stripChars ("073302" : String).data)).head?.all
          (fun c => !c.isWhitespace) = true)
    ∧ normalizeKey "073302" = normalizeKey (stripLeadingZeros "073302") :=
  ⟨⟨by decide, by decide⟩,
    c2_normalizeKey_stripLeadingZeros "073302" (by decide) (by decide)⟩

/-- C10 counterexample: normalization is not idempotent:
`normalizeKey "0 a" = " a"` (the space survives because stripping
happens before the zeros are removed), but `normalizeKey " a" = "a"`. -/
theorem c10_counterexample :
    ¬ (normalizeKey (normalizeKey "0 a") = normalizeKey "0 a") := by decide

/-- C10 (amended): normalization is idempotent for every `s` whose
normalized key does not begin with a whitespace character (which fails
only when the trimmed SKU's leading zeros are immediately followed by
whitespace). -/
theorem c10_normalizeKey_idem (s : String)
    (h : (normalizeKey s).data.head?.all (fun c => !c.isWhitespace) = true) :
    normalizeKey (normalizeKey s) = normalizeKey s := by
  have hu_head := lowerChars_head?_not_ws _ (stripChars_head?_not_ws s.data)
  have hu_last := lowerChars_getLast?_not_ws _ (stripChars_getLast?_not_ws s.data)
  by_cases hv : lstripZeros (lowerChars (stripChars s.data)) = []
  · have hns : normalizeKey s = ⟨lowerChars (stripChars s.data)⟩ := by
      rw [normalizeKey_eq, if_pos hv]
    rw [hns]
    rw [normalizeKey_eq]
    rw [show (⟨lowerChars (stripChars s.data)⟩ : String).data
      = lowerChars (stripChars s.data) from rfl]
    rw [stripChars_eq_self _ hu_head hu_last]
    rw [lowerChars_idem, if_pos hv]
  · have hns : normalizeKey s = ⟨lstripZeros (lowerChars (stripChars s.data))⟩ := by
      rw [normalizeKey_eq, if_neg hv]
    rw [hns] at h
    rw [show (⟨lstripZeros (lowerChars (stripChars s.data))⟩ : String).data
      = lstripZeros (lowerChars (stripChars s.data)) from rfl] at h
    have hv_head : ∀ c,
        (lstripZeros (lowerChars (stripChars s.data))).head? = some c →
        c.isWhitespace = false := by
      intro c hc
      rw [hc] at h
      simpa using h
    have hv_last : ∀ c,
        (lstripZeros (lowerChars (stripChars s.data))).getLast? = some c →
        c.isWhitespace = false := by
      intro c hc
      rw [getLast?_lstripZeros _ hv] at hc
      exact hu_last c hc
    rw [hns, normalizeKey_eq]
    rw [show (⟨lstripZeros (lowerChars (stripChars s.data))⟩ : String).data
      = lstripZeros (lowerChars (stripChars s.data)) from rfl]
    rw [stripChars_eq_self _ hv_head hv_last]
    have hlv : lowerChars (lstripZeros (lowerChars (stripChars s.data)))
        = lstripZeros (lowerChars (stripChars s.data)) := by
      rw [lstripZeros_lowerChars (stripChars s.data), lowerChars_idem]
    rw [hlv]
    rw [lstripZeros_eq_self _ (lstripZeros_head?_not_zero _)]
    rw [if_neg hv]

/-- C10 witness: idempotence applies to `" 073302 "`, whose key
`"73302"` starts with a non-whitespace character. -/
theorem c10_witness :
    ((normalizeKey " 073302 ").data.head?.all (fun c => !c.isWhitespace) = true)
    ∧ normalizeKey (normalizeKey " 073302 ") = normalizeKey " 073302 " :=
  ⟨by decide, c10_normalizeKey_idem " 073302 " (by decide)⟩
/-! ## Helper lemmas: the catalog dictionary -/

theorem dictGet_insert_self (k : String) (v : VariantRecord) (d : Catalog) :
    dictGet k (dictInsert k v d) = some v := by
  unfold dictInsert dictGet
  by_cases hany : d.any (fun p => p.1 == k) = true
  · rw [if_pos hany]
    induction d with
    | nil => simp at hany
    | cons q t ih =>
      cases hq : (q.1 == k) with
      | true =>
        rw [List.map_cons, if_pos hq]
        rw [List.find?_cons_of_pos _ (by simp)]
        rfl
      | false =>
        rw [List.map_cons, if_neg (by simp [hq])]
        rw [List.find?_cons_of_neg _ (by simp [hq])]
        apply ih
        simpa [hq] using hany
  · rw [if_neg hany]
    rw [List.find?_append]
    rw [show d.find? (fun p => p.1 == k) = none from by
      rw [List.find?_eq_none]
      intro x hx hpx
      exact hany (List.any_eq_true.mpr ⟨x, hx, hpx⟩)]
    rw [show List.find? (fun p => p.1 == k) [(k, v)] = some (k, v) from by
      rw [List.find?_cons_of_pos _ (by simp)]]
    rfl

theorem dictGet_insert_ne (k k2 : String) (v : VariantRecord) (d : Catalog)
    (hne : ¬ k2 = k) : dictGet k2 (dictInsert k v d) = dictGet k2 d := by
  unfold dictInsert dictGet
  by_cases hany : d.any (fun p => p.1 == k) = true
  · rw [if_pos hany]
    clear hany
    induction d with
    | nil => rfl
    | cons q t ih =>
      cases hq : (q.1 == k) with
      | true =>
        have hq1 : q.1 = k := by simpa using hq
        rw [List.map_cons, if_pos hq]
        rw [List.find?_cons_of_neg _ (by
          simp only [beq_iff_eq]
          exact fun hcon => hne hcon.symm)]
        rw [List.find?_cons_of_neg _ (by
          simp only [beq_iff_eq, hq1]
          exact fun hcon => hne hcon.symm)]
        exact ih
      | false =>
        rw [List.map_cons, if_neg (by simp [hq])]
        rw [List.find?_cons, List.find?_cons]
        cases hq2 : (q.1 == k2) with
        | true => rfl
        | false => exact ih
  · rw [if_neg hany]
    rw [List.find?_append]
    rw [show List.find? (fun p => p.1 == k2) [(k, v)] = none from by
      rw [List.find?_cons_of_neg _ (by
        simp only [beq_iff_eq]
        exact fun hcon => hne hcon.symm)]
      rfl]
    rw [Option.or_none]

/-! ## Helper lemmas: indexing as a fold over eligible variants -/

theorem foldl_filter_skip {α β : Type} (p : β → Bool) (g : α → β → α) :
    ∀ (l : List β) (init : α),
      l.foldl (fun acc b => if p b then g acc b else acc) init
        = (l.filter p).foldl g init := by
  intro l
  induction l with
  | nil => intro init; rfl
  | cons b t ih =>
    intro init
    cases hb : p b with
    | true =>
      rw [List.filter_cons_of_pos hb]
      rw [List.foldl_cons, List.foldl_cons, hb, if_pos rfl]
      exact ih (g init b)
    | false =>
      rw [List.filter_cons_of_neg (by simp [hb])]
      rw [List.foldl_cons, hb, if_neg (by simp)]
      exact ih init

theorem getLast?_cons_eq {α : Type} (a : α) (l : List α) :
    (a :: l).getLast? = match l.getLast? with
      | some x => some x
      | none => some a := by
  cases l with
  | nil => rfl
  | cons b t =>
    rw [List.getLast?_cons_cons]
    cases hl : (b :: t).getLast? with
    | none => simp at hl
    | some x => rfl

theorem _index_product_eq_pairs (base : String) (p : Product) (cat : Catalog) :
    _index_product base cat p = (eligibleVariants p).foldl
      (fun c pv => dictInsert (pairKey pv) (pairRecord base pv) c) cat := by
  have hbody : _index_product base cat p
      = p.variants.foldl (fun cat variant =>
          if truthyStr variant.sku then
            dictInsert (pairKey (p, variant)) (pairRecord base (p, variant)) cat
          else cat) cat := by
    show p.variants.foldl (fun cat variant =>
        match variant.sku with
        | none => cat
        | some sku =>
          if sku == "" then cat
          else dictInsert (normalizeKey sku)
            (mkVariantData base p (headImage p.images) variant sku) cat) cat = _
    congr 1
    funext cat variant
    cases hsku : variant.sku with
    | none => simp [truthyStr]
    | some sku =>
      cases hemp : (sku == "") with
      | true => simp [truthyStr, hemp]
      | false => simp [truthyStr, hemp, pairKey, pairRecord, hsku]
  rw [hbody]
  unfold eligibleVariants
  rw [List.foldl_map]
  exact foldl_filter_skip _ _ p.variants cat

theorem foldl_index_products (base : String) :
    ∀ (ps : List Product) (cat : Catalog),
      ps.foldl (_index_product base) cat
        = (eligiblePairs ps).foldl
            (fun c pv => dictInsert (pairKey pv) (pairRecord base pv) c) cat := by
  intro ps
  induction ps with
  | nil => intro cat; rfl
  | cons p t ih =>
    intro cat
    rw [List.foldl_cons]
    rw [show eligiblePairs (p :: t) = eligibleVariants p ++ eligiblePairs t from by
      unfold eligiblePairs
      rw [List.map_cons, List.flatten_cons]]
    rw [List.foldl_append]
    rw [_index_product_eq_pairs]
    exact ih _

/-- The central dictionary fact: after inserting all pairs of a list in
order, a key holds the record of the *last* pair with that key, and an
untouched key keeps its previous binding. -/
theorem dictGet_foldl_insert (base : String) (key : String) :
    ∀ (l : List (Product × Variant)) (cat : Catalog),
      dictGet key (l.foldl
          (fun c pv => dictInsert (pairKey pv) (pairRecord base pv) c) cat)
        = match (l.filter (fun pv => pairKey pv == key)).getLast? with
          | some pv => some (pairRecord base pv)
          | none => dictGet key cat := by
  intro l
  induction l with
  | nil => intro cat; rfl
  | cons pv t ih =>
    intro cat
    rw [List.foldl_cons]
    rw [ih]
    cases hk : (pairKey pv == key) with
    | true =>
      have hkeq : pairKey pv = key := by simpa using hk
      rw [@List.filter_cons_of_pos _ (fun q => pairKey q == key) pv t hk]
      rw [getLast?_cons_eq]
      cases hrest : (t.filter (fun q => pairKey q == key)).getLast? with
      | some pv2 => rfl
      | none =>
        rw [hkeq]
        rw [dictGet_insert_self]
    | false =>
      have hkne : ¬ key = pairKey pv := by
        intro hcon
        rw [beq_eq_false_iff_ne] at hk
        exact hk hcon.symm
      rw [@List.filter_cons_of_neg _ (fun q => pairKey q == key) pv t (by simp [hk])]
      cases hrest : (t.filter (fun q => pairKey q == key)).getLast? with
      | some pv2 => rfl
      | none =>
        exact dictGet_insert_ne _ _ _ _ hkne

/-! ## Helper lemmas: the pagination loop -/

theorem fetchLoop_stop (base : String) (cat : Catalog) (total fetches : Nat)
    (rest : List PageResp) (stop : PageResp)
    (hstop : stop = PageResp.ok [] ∨ stop = PageResp.badStatus
      ∨ stop = PageResp.exn) :
    fetchLoop base cat total fetches (stop :: rest) = (cat, total, fetches + 1) := by
  rcases hstop with h | h | h <;> subst h <;> rfl

theorem fetchLoop_ok_pages (base : String) :
    ∀ (pages : List (List Product)) (cat : Catalog) (total fetches : Nat)
      (rest : List PageResp), (∀ pg ∈ pages, pg ≠ []) →
      fetchLoop base cat total fetches (pages.map PageResp.ok ++ rest)
        = fetchLoop base (pages.flatten.foldl (_index_product base) cat)
            (if pages.isEmpty then total
             else (pages.flatten.foldl (_index_product base) cat).length)
            (fetches + pages.length) rest := by
  intro pages
  induction pages with
  | nil =>
    intro cat total fetches rest hne
    simp
  | cons pg t ih =>
    intro cat total fetches rest hne
    have hpg : pg ≠ [] := hne pg (by simp)
    cases hpgc : pg with
    | nil => exact absurd hpgc hpg
    | cons p ps =>
      rw [List.map_cons, List.cons_append]
      rw [show fetchLoop base cat total fetches
          (PageResp.ok (p :: ps) :: (t.map PageResp.ok ++ rest))
          = fetchLoop base ((p :: ps).foldl (_index_product base) cat)
              ((p :: ps).foldl (_index_product base) cat).length (fetches + 1)
              (t.map PageResp.ok ++ rest) from rfl]
      rw [ih _ _ _ _ (fun pg2 h2 => hne pg2 (by
        subst hpgc
        exact List.mem_cons_of_mem _ h2))]
      rw [show ((p :: ps) :: t).flatten = (p :: ps) ++ t.flatten from
        List.flatten_cons]
      rw [List.foldl_append]
      rw [if_neg (show ¬ (((p :: ps) :: t).isEmpty = true) from by simp)]
      have hB : (if t.isEmpty then ((p :: ps).foldl (_index_product base) cat).length
          else (t.flatten.foldl (_index_product base)
            ((p :: ps).foldl (_index_product base) cat)).length)
          = (t.flatten.foldl (_index_product base)
              ((p :: ps).foldl (_index_product base) cat)).length := by
        cases t with
        | nil => rfl
        | cons q r => rfl
      rw [hB]
      rw [show fetches + 1 + t.length = fetches + ((p :: ps) :: t).length from by
        rw [List.length_cons]
        omega]

theorem fetch_catalog_stops (base : String) (pages : List (List Product))
    (hne : ∀ pg ∈ pages, pg ≠ []) (stop : PageResp) (rest : List PageResp)
    (hstop : stop = PageResp.ok [] ∨ stop = PageResp.badStatus
      ∨ stop = PageResp.exn) :
    fetch_catalog (pages.map PageResp.ok ++ stop :: rest) (initIndexer base)
      = ({ base_url := rstripSlash base,
           catalog := pages.flatten.foldl (_index_product (rstripSlash base)) [],
           indexed := true },
         (pages.flatten.foldl (_index_product (rstripSlash base)) []).length,
         pages.length + 1) := by
  have hloop : fetchLoop (rstripSlash base) [] 0 0
      (pages.map PageResp.ok ++ stop :: rest)
      = (pages.flatten.foldl (_index_product (rstripSlash base)) [],
         (pages.flatten.foldl (_index_product (rstripSlash base)) []).length,
         pages.length + 1) := by
    rw [fetchLoop_ok_pages (rstripSlash base) pages [] 0 0 (stop :: rest) hne]
    rw [fetchLoop_stop _ _ _ _ _ _ hstop]
    rw [Nat.zero_add]
    cases pages with
    | nil => rfl
    | cons pg t => rfl
  simp only [fetch_catalog, initIndexer]
  rw [hloop]

theorem mem_eligiblePairs {ps : List Product} {pv : Product × Variant} :
    pv ∈ eligiblePairs ps
      ↔ pv.1 ∈ ps ∧ pv.2 ∈ pv.1.variants ∧ truthyStr pv.2.sku = true := by
  unfold eligiblePairs eligibleVariants
  rw [List.mem_flatten]
  constructor
  · rintro ⟨l, hl, hpv⟩
    rw [List.mem_map] at hl
    obtain ⟨p, hp, rfl⟩ := hl
    rw [List.mem_map] at hpv
    obtain ⟨v, hv, rfl⟩ := hpv
    rw [List.mem_filter] at hv
    exact ⟨hp, hv.1, hv.2⟩
  · rintro ⟨h1, h2, h3⟩
    refine ⟨(pv.1.variants.filter (fun v => truthyStr v.sku)).map
      (fun v => (pv.1, v)), ?_, ?_⟩
    · exact List.mem_map_of_mem _ h1
    · rw [List.mem_map]
      refine ⟨pv.2, ?_, ?_⟩
      · rw [List.mem_filter]
        exact ⟨h2, h3⟩
      · exact Prod.mk.eta

/-! ## Claim theorems: catalog fetch and lookup (C7, C6, C1, C4, C9) -/

/-- C7: for every SKU, calling `lookup_sku` on an indexer on which
`fetch_catalog` has never been called (`indexed` still `False` as set
by `__init__`) returns `none` and raises no error (the embedding is a
total function). -/
theorem c7_lookup_before_fetch (base sku : String) :
    lookup_sku (initIndexer base) sku = none := rfl

/-- C6: on an indexed state, `lookup_sku` normalizes the query exactly
as indexing does and returns `catalog[normalizeKey sku]` (`none` when
absent); and in the spec's end-to-end scenario (page 1: SKU `"ABC-1"`,
page 2: SKU `"073302"`, page 3 empty), the count is 2, `"73302"` and
`"073302"` both return the page-2 record, `"ABC-1"` returns its record,
and `"missing"` returns `none`. -/
theorem c6_lookup_after_index (st : IndexerState) (sku : String)
    (h : st.indexed = true) :
    lookup_sku st sku = dictGet (normalizeKey sku) st.catalog
    ∧ (fetch_catalog feedC6 (initIndexer "https://shop.example")).2.1 = 2
    ∧ lookup_sku (fetch_catalog feedC6 (initIndexer "https://shop.example")).1 "73302"
        = some (pairRecord "https://shop.example" (productB, variantB))
    ∧ lookup_sku (fetch_catalog feedC6 (initIndexer "https://shop.example")).1 "073302"
        = some (pairRecord "https://shop.example" (productB, variantB))
    ∧ lookup_sku (fetch_catalog feedC6 (initIndexer "https://shop.example")).1 "ABC-1"
        = some (pairRecord "https://shop.example" (productA, variantA))
    ∧ lookup_sku (fetch_catalog feedC6 (initIndexer "https://shop.example")).1 "missing"
        = none := by
  refine ⟨?_, by decide, by decide, by decide, by decide, by decide⟩
  unfold lookup_sku
  rw [h]
  rw [if_neg (by simp)]

/-- C6 witness: the general lookup equation applied to a concrete
indexed state. -/
theorem c6_witness :
    lookup_sku ⟨"b", [], true⟩ "q"
        = dictGet (normalizeKey "q") (⟨"b", [], true⟩ : IndexerState).catalog
    ∧ (fetch_catalog feedC6 (initIndexer "https://shop.example")).2.1 = 2
    ∧ lookup_sku (fetch_catalog feedC6 (initIndexer "https://shop.example")).1 "73302"
        = some (pairRecord "https://shop.example" (productB, variantB))
    ∧ lookup_sku (fetch_catalog feedC6 (initIndexer "https://shop.example")).1 "073302"
        = some (pairRecord "https://shop.example" (productB, variantB))
    ∧ lookup_sku (fetch_catalog feedC6 (initIndexer "https://shop.example")).1 "ABC-1"
        = some (pairRecord "https://shop.example" (productA, variantA))
    ∧ lookup_sku (fetch_catalog feedC6 (initIndexer "https://shop.example")).1 "missing"
        = none :=
  c6_lookup_after_index ⟨"b", [], true⟩ "q" rfl

/-- C1: for a feed of `k` non-empty pages followed by an empty page,
`fetch_catalog` from a fresh indexer performs exactly `k + 1` page
fetches and terminates; the final catalog is the fold of
`_index_product` over all pages' products in order; the returned count
is the catalog's size; a key is present in the catalog exactly when
some variant with a truthy (non-`None`, non-empty) SKU normalizes to
it — variants without a SKU are never indexed; and an empty page 1
yields an empty catalog and count 0. -/
theorem c1_fetch_catalog_pagination (base : String) (pages : List (List Product))
    (hne : ∀ pg ∈ pages, pg ≠ []) :
    (fetch_catalog (pages.map PageResp.ok ++ [PageResp.ok []])
        (initIndexer base)).2.2 = pages.length + 1
    ∧ (fetch_catalog (pages.map PageResp.ok ++ [PageResp.ok []])
        (initIndexer base)).1.catalog
        = pages.flatten.foldl (_index_product (rstripSlash base)) []
    ∧ (fetch_catalog (pages.map PageResp.ok ++ [PageResp.ok []])
        (initIndexer base)).2.1
        = (fetch_catalog (pages.map PageResp.ok ++ [PageResp.ok []])
            (initIndexer base)).1.catalog.length
    ∧ (∀ key : String,
        (dictGet key (fetch_catalog (pages.map PageResp.ok ++ [PageResp.ok []])
            (initIndexer base)).1.catalog).isSome = true
          ↔ ∃ p ∈ pages.flatten, ∃ v ∈ p.variants,
              ∃ s, v.sku = some s ∧ ¬ s = "" ∧ normalizeKey s = key)
    ∧ (pages = [] →
        (fetch_catalog (pages.map PageResp.ok ++ [PageResp.ok []])
            (initIndexer base)).1.catalog = []
        ∧ (fetch_catalog (pages.map PageResp.ok ++ [PageResp.ok []])
            (initIndexer base)).2.1 = 0) := by
  have hrun := fetch_catalog_stops base pages hne (PageResp.ok []) [] (Or.inl rfl)
  rw [hrun]
  refine ⟨rfl, rfl, rfl, ?_, ?_⟩
  · intro key
    rw [foldl_index_products, dictGet_foldl_insert]
    cases hlast : ((eligiblePairs pages.flatten).filter
        (fun pv => pairKey pv == key)).getLast? with
    | some pv =>
      simp only [Option.isSome_some, true_iff]
      have hmem := List.mem_of_getLast?_eq_some hlast
      rw [List.mem_filter] at hmem
      obtain ⟨hmemE, hkeyb⟩ := hmem
      rw [mem_eligiblePairs] at hmemE
      obtain ⟨hp, hv, htr⟩ := hmemE
      cases hsku : pv.2.sku with
      | none =>
        rw [hsku] at htr
        exact absurd htr (by simp [truthyStr])
      | some s =>
        refine ⟨pv.1, hp, pv.2, hv, s, hsku, ?_, ?_⟩
        · intro hcon
          rw [hsku, hcon] at htr
          simp [truthyStr] at htr
        · have hkeq : pairKey pv = key := by simpa using hkeyb
          rw [← hkeq]
          unfold pairKey
          rw [hsku]
          rfl
    | none =>
      have hemp : (eligiblePairs pages.flatten).filter
          (fun pv => pairKey pv == key) = [] :=
        List.getLast?_eq_none_iff.mp hlast
      constructor
      · intro hcon
        simp [dictGet] at hcon
      · rintro ⟨p, hp, v, hv, s, hs, hsne, hkey⟩
        exfalso
        have hmem : (p, v) ∈ (eligiblePairs pages.flatten).filter
            (fun pv => pairKey pv == key) := by
          rw [List.mem_filter]
          constructor
          · rw [mem_eligiblePairs]
            refine ⟨hp, hv, ?_⟩
            show truthyStr v.sku = true
            rw [hs]
            simp [truthyStr, hsne]
          · show (pairKey (p, v) == key) = true
            unfold pairKey
            rw [show ((p, v).2 : Variant).sku = v.sku from rfl, hs]
            simp [hkey]
        rw [hemp] at hmem
        exact absurd hmem (List.not_mem_nil _)
  · intro hpag
    subst hpag
    exact ⟨rfl, rfl⟩

/-- C1 witness: for the one-page feed `[[productA]]` the loop performs
exactly two fetches. -/
theorem c1_witness :
    (fetch_catalog ([[productA]].map PageResp.ok ++ [PageResp.ok []])
        (initIndexer "https://shop.example")).2.2 = 2 :=
  (c1_fetch_catalog_pagination "https://shop.example" [[productA]] (by decide)).1

/-- C4: when page `p` of the feed fails (non-200 status, or an
exception from fetching/parsing a malformed body) after `p - 1`
non-empty good pages, `fetch_catalog` stops paginating at page `p`
(exactly `p` fetches, the remaining feed untouched), returns normally
(the embedding is total — no exception propagates), and yields the
partial catalog and count accumulated from the good pages, with
`indexed` set. -/
theorem c4_fetch_catalog_partial_on_failure (base : String)
    (pages : List (List Product)) (fail : PageResp) (rest : List PageResp)
    (hne : ∀ pg ∈ pages, pg ≠ [])
    (hfail : fail = PageResp.badStatus ∨ fail = PageResp.exn) :
    fetch_catalog (pages.map PageResp.ok ++ fail :: rest) (initIndexer base)
      = ({ base_url := rstripSlash base,
           catalog := pages.flatten.foldl (_index_product (rstripSlash base)) [],
           indexed := true },
         (pages.flatten.foldl (_index_product (rstripSlash base)) []).length,
         pages.length + 1) :=
  fetch_catalog_stops base pages hne fail rest (Or.inr hfail)

/-- C4 witness: the failure behaviour at a concrete feed whose second
page returns a non-200 status, with one further page never fetched. -/
theorem c4_witness :
    fetch_catalog ([[productA]].map PageResp.ok
        ++ PageResp.badStatus :: [PageResp.ok [productB]])
      (initIndexer "https://shop.example")
      = ({ base_url := rstripSlash "https://shop.example",
           catalog := [[productA]].flatten.foldl
             (_index_product (rstripSlash "https://shop.example")) [],
           indexed := true },
         ([[productA]].flatten.foldl
           (_index_product (rstripSlash "https://shop.example")) []).length,
         [[productA]].length + 1) :=
  c4_fetch_catalog_partial_on_failure "https://shop.example" [[productA]]
    PageResp.badStatus [PageResp.ok [productB]] (by decide) (Or.inl rfl)

/-- C9: after `fetch_catalog`, every key maps to the record of the
*last* eligible variant (in feed processing order) whose normalized SKU
equals that key — last-write-wins on collisions; concretely, indexing
`"073302"` then `"73302"` leaves key `"73302"` bound to the later
variant's record. -/
theorem c9_last_write_wins (base : String) (pages : List (List Product))
    (hne : ∀ pg ∈ pages, pg ≠ []) (key : String) :
    dictGet key ((fetch_catalog (pages.map PageResp.ok ++ [PageResp.ok []])
        (initIndexer base)).1.catalog)
      = (((eligiblePairs pages.flatten).filter
          (fun pv => pairKey pv == key)).getLast?).map
            (pairRecord (rstripSlash base))
    ∧ dictGet "73302" ((fetch_catalog feedC9
        (initIndexer "https://shop.example")).1.catalog)
      = some (pairRecord "https://shop.example" (productZ2, variantZ2)) := by
  constructor
  · rw [fetch_catalog_stops base pages hne (PageResp.ok []) [] (Or.inl rfl)]
    rw [foldl_index_products, dictGet_foldl_insert]
    cases hlast : ((eligiblePairs pages.flatten).filter
        (fun pv => pairKey pv == key)).getLast? with
    | some pv => rfl
    | none => rfl
  · decide

/-- C9 witness: the last-write-wins equation at the concrete collision
feed. -/
theorem c9_witness :
    dictGet "73302" ((fetch_catalog ([[productZ1, productZ2]].map PageResp.ok
        ++ [PageResp.ok []]) (initIndexer "https://shop.example")).1.catalog)
      = (((eligiblePairs [[productZ1, productZ2]].flatten).filter
          (fun pv => pairKey pv == "73302")).getLast?).map
            (pairRecord (rstripSlash "https://shop.example")) :=
  (c9_last_write_wins "https://shop.example" [[productZ1, productZ2]]
    (by decide) "73302").1

/-! ## Helper lemmas: input normalization (`_normalise_rows`) -/

theorem normLoop_spec :
    ∀ (rows : List Row) (seen : List (String × String)),
      ((normLoop seen rows).map itemKey).Nodup
      ∧ (∀ it ∈ normLoop seen rows, seen.contains (itemKey it) = false)
      ∧ List.Sublist (normLoop seen rows) (rows.filterMap extractItem)
      ∧ (∀ k : String × String, seen.contains k = true →
          (normLoop seen rows).find? (fun it => itemKey it == k) = none)
      ∧ (∀ k : String × String, seen.contains k = false →
          (normLoop seen rows).find? (fun it => itemKey it == k)
            = (rows.filterMap extractItem).find? (fun it => itemKey it == k)) := by
  intro rows
  induction rows with
  | nil =>
    intro seen
    refine ⟨List.nodup_nil, ?_, List.nil_sublist _, ?_, ?_⟩
    · intro it hit
      rw [show normLoop seen [] = [] from rfl] at hit
      exact absurd hit (List.not_mem_nil it)
    · intro k _
      rfl
    · intro k _
      rfl
  | cons r rest ih =>
    intro seen
    cases hr : extractItem r with
    | none =>
      have hloop : normLoop seen (r :: rest) = normLoop seen rest := by
        simp only [normLoop, hr]
      have hfm : (r :: rest).filterMap extractItem = rest.filterMap extractItem := by
        rw [List.filterMap_cons, hr]
      rw [hloop, hfm]
      exact ih seen
    | some it =>
      by_cases hseen : seen.contains (itemKey it) = true
      · have hloop : normLoop seen (r :: rest) = normLoop seen rest := by
          simp only [normLoop, hr]
          rw [if_pos hseen]
        have hfm : (r :: rest).filterMap extractItem
            = it :: rest.filterMap extractItem := by
          rw [List.filterMap_cons, hr]
        rw [hloop, hfm]
        obtain ⟨ha, hb, hc, hd, he⟩ := ih seen
        refine ⟨ha, hb, hc.trans (List.sublist_cons_self _ _), hd, ?_⟩
        intro k hk
        rw [he k hk]
        rw [List.find?_cons_of_neg _ (by
          simp only [beq_iff_eq]
          intro hcon
          rw [hcon] at hseen
          rw [hseen] at hk
          exact absurd hk (by decide))]
      · have hseenf : seen.contains (itemKey it) = false :=
          Bool.not_eq_true _ ▸ hseen
        have hloop : normLoop seen (r :: rest)
            = it :: normLoop (itemKey it :: seen) rest := by
          simp only [normLoop, hr]
          rw [if_neg hseen]
        have hfm : (r :: rest).filterMap extractItem
            = it :: rest.filterMap extractItem := by
          rw [List.filterMap_cons, hr]
        rw [hloop, hfm]
        obtain ⟨ha, hb, hc, hd, he⟩ := ih (itemKey it :: seen)
        refine ⟨?_, ?_, hc.cons₂ _, ?_, ?_⟩
        · rw [List.map_cons, List.nodup_cons]
          constructor
          · intro hmem
            rw [List.mem_map] at hmem
            obtain ⟨it2, hit2, hkey2⟩ := hmem
            have hco := hb it2 hit2
            rw [List.contains_cons] at hco
            rw [hkey2] at hco
            simp at hco
          · exact ha
        · intro it2 hit2
          cases hit2 with
          | head => exact hseenf
          | tail _ hmem =>
            have hco := hb it2 hmem
            rw [List.contains_cons] at hco
            rcases Bool.or_eq_false_iff.mp hco with ⟨_, h2⟩
            exact h2
        · intro k hk
          have hne : (itemKey it == k) = false := by
            rw [beq_eq_false_iff_ne]
            intro hcon
            rw [hcon] at hseenf
            rw [hseenf] at hk
            exact absurd hk (by decide)
          rw [List.find?_cons_of_neg _ (by simp [hne])]
          apply hd
          rw [List.contains_cons]
          rw [hk]
          simp
        · intro k hk
          by_cases hke : itemKey it = k
          · rw [List.find?_cons_of_pos _ (by simp [hke]),
              List.find?_cons_of_pos _ (by simp [hke])]
          · have hne : (itemKey it == k) = false := by
              rw [beq_eq_false_iff_ne]
              exact hke
            rw [List.find?_cons_of_neg _ (by simp [hne])]
            rw [List.find?_cons_of_neg _ (by simp [hne])]
            apply he
            rw [List.contains_cons, hk]
            rw [show (k == itemKey it) = false from by
              rw [beq_eq_false_iff_ne]
              exact fun hcon => hke hcon.symm]
            rfl

theorem normLoop_drop_none :
    ∀ (pre : List Row) (seen : List (String × String)) (r : Row)
      (post : List Row), extractItem r = none →
      normLoop seen (pre ++ r :: post) = normLoop seen (pre ++ post) := by
  intro pre
  induction pre with
  | nil =>
    intro seen r post hr
    simp only [List.nil_append, normLoop, hr]
  | cons q pre2 ih =>
    intro seen r post hr
    cases hq : extractItem q with
    | none =>
      simp only [List.cons_append, normLoop, hq]
      exact ih seen r post hr
    | some it =>
      simp only [List.cons_append, normLoop, hq]
      by_cases hseen : seen.contains (itemKey it) = true
      · rw [if_pos hseen, if_pos hseen]
        exact ih seen r post hr
      · rw [if_neg hseen, if_neg hseen]
        exact congrArg (fun l => it :: l) (ih (itemKey it :: seen) r post hr)

/-! ## Claim theorems: input normalization (C3, C8) -/

/-- C3: `_normalise_rows` deduplicates by the lowercased `(sku, url)`
identity key — the result's keys are pairwise distinct, the result is a
subsequence of the extracted items (so input order of first occurrences
is preserved), and for every key the result's entry is exactly the
*first* extracted item with that key; rows with both fields absent or
whitespace-only are silently dropped anywhere in the list (no error —
the embedding is total); and two rows whose `(sku, url)` differ only by
case yield one `Item`, at the first occurrence's index. -/
theorem c3_normalise_rows (rows : List Row) :
    ((_normalise_rows rows).map itemKey).Nodup
    ∧ List.Sublist (_normalise_rows rows) (rows.filterMap extractItem)
    ∧ (∀ k : String × String,
        (_normalise_rows rows).find? (fun it => itemKey it == k)
          = (rows.filterMap extractItem).find? (fun it => itemKey it == k))
    ∧ (∀ (pre post : List Row) (r : Row), extractItem r = none →
        _normalise_rows (pre ++ r :: post) = _normalise_rows (pre ++ post))
    ∧ _normalise_rows [[("sku", some "ABC-1")], [("sku", some "abc-1")],
          [("url", some "u")]]
        = [{ sku := some "ABC-1", url := none },
           { sku := none, url := some "u" }] := by
  obtain ⟨ha, hb, hc, hd, he⟩ := normLoop_spec rows []
  refine ⟨ha, hc, ?_, ?_, by decide⟩
  · intro k
    exact he k rfl
  · intro pre post r hr
    exact normLoop_drop_none pre [] r post hr

/-- C3 witness: a whitespace-only row is silently dropped from the
middle of a concrete input. -/
theorem c3_witness :
    extractItem [("sku", some " ")] = none
    ∧ _normalise_rows ([[("sku", some "x")]] ++ [("sku", some " ")]
        :: [[("url", some "u")]])
      = _normalise_rows ([[("sku", some "x")]] ++ [[("url", some "u")]]) :=
  ⟨by decide,
    (c3_normalise_rows [[("sku", some "x")]]).2.2.2.1 [[("sku", some "x")]]
      [[("url", some "u")]] [("sku", some " ")] (by decide)⟩

/-- C8 (code bug): the claim — and the source's own comment
`# Case-insensitive key lookup` — say any casing of the `sku`/`url`
field names is recognized, but `_normalise_rows` only consults the
exact keys `"SKU"`/`"sku"` (`"URL"`/`"url"`), so a row carrying only a
`"Sku"` key is silently dropped instead of contributing its value. -/
theorem c8_mixed_case_key_dropped :
    _normalise_rows [[("Sku", some "ABC-1")]] = []
    ∧ _normalise_rows [[("SKU", some "ABC-1")]]
        = [{ sku := some "ABC-1", url := none }]
    ∧ _normalise_rows [[("sku", some "ABC-1")]]
        = [{ sku := some "ABC-1", url := none }] := by
  refine ⟨by decide, by decide, by decide⟩

end Scraper
